import Mathlib

/-!
Verification of the BuildingModel simulation core
(src/applications/contrib/MpcAgent/src/BuildingModel.h).

The repository ships the OpenModelica-generated header of the model.  The
inline bodies found in that header (numZeroCrossings, numStateEvents,
confluent_event, update_vars, numTimeEvents, numDelays, the field layout
with its _PRE_ shadows) are embedded directly from the source.  Bodies that
live in the generated companion translation unit or the adevs runtime
(save_vars, restore_vars, calc_vars, der_func, internal_event, the
hysteresis event surfaces, the delay buffers and the initial least-squares
solver) are modelled from the specification, as flagged on each definition.

Real-valued quantities are embedded as rationals: every operation the
claims exercise is a plain copy, comparison or field-wise arithmetic, so
exactness of values ("bit-for-bit") is value equality here.
-/

namespace BuildingModel

/-- Zero-crossing bookkeeping, from the header:
`int numRelations() const { return 2; }`. -/
def numRelations : Nat := 2

/-- From the header: `int numMathEvents() const { return 1; }`. -/
def numMathEvents : Nat := 1

/-- From the header:
`int numZeroCrossings() const { return numRelations()+2*numMathEvents(); }`. -/
def numZeroCrossings : Nat := numRelations + 2 * numMathEvents

/-- From the header: `int numStateEvents() const { return numZeroCrossings(); }`,
documented as the index of the first extra state event of a derived class. -/
def numStateEvents : Nat := numZeroCrossings

/-- From the header: `int numTimeEvents() const { return 0; }`. -/
def numTimeEvents : Nat := 0

/-- From the header: `int numDelays() const { return 0; }`. -/
def numDelays : Nat := 0

/-- The indicator vector seen by the integrator: the built-in entries
written by state_event_func followed by any extra entries appended by a
derived class through extra_state_event_funcs, which the header documents
as starting at index numStateEvents(). -/
def indicatorVector (builtin extra : List ℚ) : List ℚ := builtin ++ extra

/-- The model variables declared in the header (state, derivative,
algebraic, real parameter and integer parameter variables), one field per
`double _x;` / `int _x;` declaration. -/
@[ext]
structure Vars where
  t3 : ℚ
  t2 : ℚ
  t1 : ℚ
  energyUsed : ℚ
  DER_t3 : ℚ
  DER_t2 : ℚ
  DER_t1 : ℚ
  DER_energyUsed : ℚ
  solarPower : ℚ
  d3 : ℚ
  d2 : ℚ
  d1 : ℚ
  dayHour : ℚ
  dayCycle : ℚ
  day : ℚ
  C1 : ℚ
  C2 : ℚ
  C3 : ℚ
  K1 : ℚ
  K2 : ℚ
  K3 : ℚ
  K4 : ℚ
  K5 : ℚ
  solarGain : ℚ
  heatHvac : ℚ
  coolHvac : ℚ
  coolStage : ℤ
  heatStage : ℤ
  deriving DecidableEq

/-- The full model state: the current variables, their `_PRE_` shadows
(one shadow per variable, exactly as the header pairs each `double _x;`
with `double _PRE_x;`), the simulation clock with its shadow, the event
tolerance and the mode flags, and the state of the single math-event
function (its committed branch index and its init flag). -/
@[ext]
structure ModelState where
  vars : Vars
  pre : Vars
  timeValue : ℚ
  PRE_timeValue : ℚ
  epsilon : ℚ
  atEvent : Bool
  atInit : Bool
  floorIndex : ℤ
  floorInit : Bool
  deriving DecidableEq

/-- Modelled from the spec: the body of `save_vars` is not under src/;
per the Variable Store contract, save copies every current value into its
shadow, atomically and with no other side effect. -/
def save_vars (s : ModelState) : ModelState :=
  { s with pre := s.vars, PRE_timeValue := s.timeValue }

/-- Modelled from the spec: the body of `restore_vars` is not under src/;
per the Variable Store contract, restore copies every shadow back into the
current value, atomically and with no other side effect. -/
def restore_vars (s : ModelState) : ModelState :=
  { s with vars := s.pre, timeValue := s.PRE_timeValue }

/-- An arbitrary mutation of the model's state, derivative, algebraic and
parameter variables (the quantities claim C2 allows to change between save
and restore): any function on the variable record, applied to the current
values. -/
def mutate_vars (f : Vars → Vars) (s : ModelState) : ModelState :=
  { s with vars := f s.vars }

/-- The state vector exchanged with the external integrator: the four
state variables t3, t2, t1, energyUsed (`double* q`). -/
def Vec4 : Type := ℚ × ℚ × ℚ × ℚ

/-- Install a caller-supplied state vector into the variable record, as the
algebraic evaluator does when its `q` argument is non-null. -/
def writeStates (q : Vec4) (v : Vars) : Vars :=
  { v with t3 := q.1, t2 := q.2.1, t1 := q.2.2.1, energyUsed := q.2.2.2 }

/-- Modelled from the spec: the generated equation bodies behind
`calc_vars` are not under src/.  Per the Algebraic Evaluator contract the
algebraic and derivative quantities are deterministic functions of the
state variables, the parameters, the simulation clock and the committed
branch of the one discontinuous (math-event) primitive, computed in
dependency order.  These concrete right-hand sides stand in for the
generated thermal equations; the claims depend only on which fields are
read and which are written. -/
def computeVars (time : ℚ) (fi : ℤ) (v : Vars) : Vars :=
  let day : ℚ := (fi : ℚ)
  let dayCycle := time / 24 - day
  let dayHour := 24 * dayCycle
  let solarPower := v.solarGain * dayCycle
  let d1 := v.K1 * (v.t2 - v.t1)
  let d2 := v.K2 * (v.t3 - v.t2)
  let d3 := v.K3 * (v.t1 - v.t3) + v.K5 * solarPower + v.K4 * dayHour
  { v with
    day := day, dayCycle := dayCycle, dayHour := dayHour,
    solarPower := solarPower, d1 := d1, d2 := d2, d3 := d3,
    DER_t1 := (d1 + v.heatHvac * (v.heatStage : ℚ)
                  - v.coolHvac * (v.coolStage : ℚ)) / v.C1,
    DER_t2 := (d2 - d1 + solarPower) / v.C2,
    DER_t3 := (d3 - d2) / v.C3,
    DER_energyUsed := v.heatHvac * (v.heatStage : ℚ)
                  + v.coolHvac * (v.coolStage : ℚ) }

/-- Modelled from the spec: the body of `calc_vars` is not under src/.
State variables are initialized to `q` if provided, or left unchanged if
not, then every algebraic and derivative value is recomputed; the shadows,
the clock and the mode flags are untouched. -/
def calc_vars (q : Option Vec4) (doReinit : Bool) (s : ModelState) : ModelState :=
  let v := match q with
    | some qq => writeStates qq s.vars
    | none => s.vars
  let _ := doReinit
  { s with vars := computeVars s.timeValue s.floorIndex v }

/-- The `setInit(false)` loop of update_vars over the math-event functions,
for the single math event of this model. -/
def clearMathInit (s : ModelState) : ModelState :=
  { s with floorInit := false }

/-- From the header (inline body): update_vars calls calc_vars, clears the
init flag of every math-event function, and ends with save_vars. -/
def update_vars (q : Option Vec4) (doReinit : Bool) (s : ModelState) : ModelState :=
  save_vars (clearMathInit (calc_vars q doReinit s))

/-- Modelled from the spec: the body of `der_func` is not under src/.  It
evaluates the algebraics at the trial state `q`, reads off the derivative
vector, and undoes the trial evaluation via restore, leaving the committed
state intact for the integrator's next trial call. -/
def der_func (s : ModelState) (q : Vec4) : Vec4 × ModelState :=
  let s1 := calc_vars (some q) false s
  ((s1.vars.DER_t3, s1.vars.DER_t2, s1.vars.DER_t1, s1.vars.DER_energyUsed),
    restore_vars s1)

/-- Hysteresis half-width of the staged control relations, the rising and
falling thresholds being `stage threshold` and `threshold - hysteresis`
(spec section 8 scenario). -/
def stageHys : ℚ := 1/2

/-- Rising threshold of the cooling-stage relation. -/
def coolOn : ℚ := 20

/-- Falling threshold of the cooling-stage relation. -/
def coolOff : ℚ := coolOn - stageHys

/-- Falling (turn-on) threshold of the heating-stage relation. -/
def heatOn : ℚ := 18

/-- Rising (turn-off) threshold of the heating-stage relation. -/
def heatOff : ℚ := heatOn + stageHys

/-- Modelled from the spec: discrete update of the cooling stage when its
relation indicator triggered — an absorbing conditional assignment driven
by the zone temperature, per the staged-control description. -/
def newCool (se : List Bool) (v : Vars) : ℤ :=
  if se.getD 0 false then
    (if coolOn < v.t1 then 1 else if v.t1 < coolOff then 0 else v.coolStage)
  else v.coolStage

/-- Modelled from the spec: discrete update of the heating stage when its
relation indicator triggered. -/
def newHeat (se : List Bool) (v : Vars) : ℤ :=
  if se.getD 1 false then
    (if v.t1 < heatOn then 1 else if heatOff < v.t1 then 0 else v.heatStage)
  else v.heatStage

/-- Modelled from the spec: the discrete part of the event handler —
apply the update corresponding to each triggered relation indicator. -/
def applyDiscrete (se : List Bool) (v : Vars) : Vars :=
  { v with coolStage := newCool se v, heatStage := newHeat se v }

/-- Modelled from the spec: when one of the two indicators framing the
math-event breakpoint triggered, the committed branch index of the floor
primitive is recomputed from the clock; otherwise it is kept. -/
def newFloorIndex (se : List Bool) (time : ℚ) (old : ℤ) : ℤ :=
  if se.getD 2 false || se.getD 3 false then ⌊time / 24⌋ else old

/-- Modelled from the spec: the body of `internal_event` is not under
src/.  Per the Event Classifier and Handler contract it applies the
discrete updates for the triggered indicators, re-runs the algebraic
evaluator in reinitialize mode, commits via a fresh save (all inside
update_vars, whose composition is in the header), and returns to the
continuous mode. -/
def internal_event (s : ModelState) (q : Vec4) (se : List Bool) :
    Vec4 × ModelState :=
  let v := applyDiscrete se (writeStates q s.vars)
  let s1 := { s with vars := v,
                     floorIndex := newFloorIndex se s.timeValue s.floorIndex,
                     atEvent := true }
  let s2 := update_vars (some q) true s1
  (q, { s2 with atEvent := false })

/-- From the header (inline body): confluent_event calls
`internal_event(q,state_event)`, ignoring the input bag. -/
def confluent_event (s : ModelState) (q : Vec4) (se : List Bool)
    (xb : List ℚ) : Vec4 × ModelState :=
  let _ := xb
  internal_event s q se

/-- From the header (inline body): external_event does nothing. -/
def external_event (s : ModelState) (q : Vec4) (e : ℚ) (xb : List ℚ) :
    Vec4 × ModelState :=
  let _ := e
  let _ := xb
  (q, s)

/-- Which side of its hysteresis band an event indicator currently sits
on: the last committed crossing direction. -/
inductive Band
  | below
  | above
  deriving DecidableEq

/-- Outcome of feeding one signal value to an event indicator. -/
inductive Trigger
  | up
  | down
  | quiet
  deriving DecidableEq

/-- One event surface with its hysteresis state: rising threshold,
band width (the constructor's eventHys, default 1E-4), and the side the
signal last committed to. -/
structure HysIndicator where
  threshold : ℚ
  hys : ℚ
  band : Band
  deriving DecidableEq

/-- The constructor default `eventHys = 1E-4`. -/
def eventHysDefault : ℚ := 1/10000

/-- Modelled from the spec: the hysteresis mechanics of the event surfaces
(adevs runtime, not under src/).  From below the band, the indicator
triggers up when the signal exceeds the rising threshold; from above, it
triggers down only when the signal falls below threshold minus the band
width; in every other case it stays quiet and keeps its state. -/
def stepIndicator (ind : HysIndicator) (x : ℚ) : Trigger × HysIndicator :=
  match ind.band with
  | Band.below =>
      if ind.threshold < x then (Trigger.up, { ind with band := Band.above })
      else (Trigger.quiet, ind)
  | Band.above =>
      if x < ind.threshold - ind.hys then
        (Trigger.down, { ind with band := Band.below })
      else (Trigger.quiet, ind)

/-- Feed a sequence of signal values to an indicator, collecting the
trigger outcomes in order. -/
def runIndicator (ind : HysIndicator) : List ℚ → List Trigger
  | [] => []
  | x :: xs =>
      let r := stepIndicator ind x
      r.1 :: runIndicator r.2 xs

/-- Failure reported by the initial-condition solver. -/
inductive InitError
  | nonConvergent
  deriving DecidableEq

/-- Every residual within the configured tolerance, the convergence test
of the initial solve. -/
def residualsWithin (res : List ℚ) (eps : ℚ) : Bool :=
  res.all (fun r => decide (|r| ≤ eps))

/-- Modelled from the spec: the body of `initial_objective_func` is not
under src/.  The scalar minimization objective for initializing the reals:
the sum of squared initial-equation residuals, with the single scalar
regularization parameter lambda weighting the penalty. -/
def initial_objective_func (res : List ℚ) (lambda : ℚ) : ℚ :=
  lambda * (res.map (fun r => r * r)).sum

/-- Modelled from the spec: the body of `solve_for_initial_unknowns` is
not under src/.  A bounded-iteration local least-squares loop: if the
current unknowns already satisfy every initial-equation residual within
tolerance, succeed with them; otherwise take one improvement step and
retry, failing explicitly with nonConvergent when the iteration budget is
exhausted.  `residual` evaluates the initial-equation residuals at a
candidate vector of unknowns and `improve` is one minimization step on
the objective. -/
def solve_for_initial_unknowns (residual : List ℚ → List ℚ)
    (improve : List ℚ → List ℚ) (eps : ℚ) :
    Nat → List ℚ → Except InitError (List ℚ)
  | 0, _ => Except.error InitError.nonConvergent
  | n + 1, w =>
      if residualsWithin (residual w) eps then Except.ok w
      else solve_for_initial_unknowns residual improve eps n (improve w)

/-- Failure reported by a delay-buffer lookup. -/
inductive DelayError
  | insufficientHistory
  deriving DecidableEq

/-- One delay site: the pre-declared maximum lag (retained horizon) and
the recorded history, newest entry first. -/
structure DelayData where
  maxDelay : ℚ
  hist : List (ℚ × ℚ)
  deriving DecidableEq

/-- Modelled from the spec: eviction on record — keep every entry within
the retained horizon, plus the newest entry already past it so a lookup at
exactly the maximum lag still has an entry at or before its instant. -/
def keepHorizon (bound : ℚ) : List (ℚ × ℚ) → List (ℚ × ℚ)
  | [] => []
  | e :: rest => if bound ≤ e.1 then e :: keepHorizon bound rest else [e]

/-- Modelled from the spec: the body of `saveDelay` is not under src/.
Recording appends the (time, value) pair and evicts entries older than the
maximum requested delay for the site. -/
def saveDelay (d : DelayData) (t expr : ℚ) : DelayData :=
  { d with hist := keepHorizon (t - d.maxDelay) ((t, expr) :: d.hist) }

/-- Modelled from the spec: the body of `calcDelay` is not under src/.
A lookup at lag beyond the declared horizon fails with insufficient
history; otherwise it returns the most recent recorded entry at or before
the requested instant t - lag, failing if no retained entry is that old. -/
def calcDelay (d : DelayData) (t lag : ℚ) : Except DelayError ℚ :=
  if d.maxDelay < lag then Except.error DelayError.insufficientHistory
  else
    match d.hist.find? (fun e => decide (e.1 ≤ t - lag)) with
    | some e => Except.ok e.2
    | none => Except.error DelayError.insufficientHistory

/-- Run a sequence of saveDelay calls, oldest first. -/
def runSaves (d : DelayData) : List (ℚ × ℚ) → DelayData
  | [] => d
  | (t, v) :: rest => runSaves (saveDelay d t v) rest

/-- The recorded times are nondecreasing starting from a given instant. -/
def ascFrom (a : ℚ) : List ℚ → Bool
  | [] => true
  | b :: l => decide (a ≤ b) && ascFrom b l

/-- The last element of a list of times, with a default for the empty
list. -/
def lastTime (a : ℚ) : List ℚ → ℚ
  | [] => a
  | b :: l => lastTime b l

/-- The retained history has an entry at or before instant s, so a lookup
for instant s can be answered. -/
def Covered (d : DelayData) (s : ℚ) : Prop :=
  ∃ e ∈ d.hist, e.1 ≤ s

/-- Coverage invariant of a delay site whose newest record is at time T:
every instant inside the retained horizon, and no earlier than the start
of the simulation at time 0, has an entry at or before it. -/
def DelayInv (d : DelayData) (T : ℚ) : Prop :=
  ∀ s, T - d.maxDelay ≤ s → 0 ≤ s → Covered d s

/-- The variable record produced by one internal event: install the
integrator's state vector, apply the discrete updates of the triggered
indicators, and re-run the algebraic evaluator on the result (with the
math-event branch recomputed where its indicators triggered). -/
def eventVars (s : ModelState) (q : Vec4) (se : List Bool) : Vars :=
  computeVars s.timeValue (newFloorIndex se s.timeValue s.floorIndex)
    (writeStates q (applyDiscrete se (writeStates q s.vars)))

/-- A concrete variable record used to instantiate proved contracts. -/
def sampleVars : Vars :=
  ⟨21, 19, 18, 0, 0, 0, 0, 0, 0, 0, 0, 0, 0, 0, 0,
   1, 1, 1, 1, 1, 1, 1, 1, 1, 1, 1, 0, 0⟩

/-- A concrete committed model state (shadows equal to current values). -/
def sampleState : ModelState :=
  ⟨sampleVars, sampleVars, 0, 0, 1/10000, false, false, 0, false⟩

/-- C1: the number of built-in event indicators equals the number of
relational comparisons plus two times the number of distinct discontinuous
primitive evaluation sites — here 2 relations and 1 math event, giving 4 —
and extra indicators appended by a derived class are numbered starting at
numStateEvents(), which equals that built-in count, so the entries of the
base indicator set keep their indices. -/
theorem indicator_count_and_extension :
    numZeroCrossings = numRelations + 2 * numMathEvents ∧
    numZeroCrossings = 4 ∧
    numStateEvents = numZeroCrossings ∧
    (∀ (builtin extra : List ℚ) (j : Nat),
      builtin.length = numZeroCrossings → j < numZeroCrossings →
      (indicatorVector builtin extra)[j]? = builtin[j]?) ∧
    (∀ (builtin extra : List ℚ) (i : Nat),
      builtin.length = numZeroCrossings →
      (indicatorVector builtin extra)[numStateEvents + i]? = extra[i]?) := by
  refine ⟨rfl, rfl, rfl, ?_, ?_⟩
  · intro builtin extra j hlen hj
    exact List.getElem?_append_left (by rw [hlen]; exact hj)
  · intro builtin extra i hlen
    unfold indicatorVector
    rw [List.getElem?_append_right (by rw [hlen]; exact Nat.le_add_right _ _)]
    congr 1
    rw [hlen]
    show numStateEvents + i - numZeroCrossings = i
    unfold numStateEvents numZeroCrossings numRelations numMathEvents
    omega

/-- Witness for C1 at a concrete built-in vector of length 4 and one
extra indicator. -/
theorem indicator_count_and_extension_witness :
    ([1, 2, 3, 4] : List ℚ).length = numZeroCrossings ∧
    (indicatorVector [1, 2, 3, 4] [5])[numStateEvents + 0]? = ([5] : List ℚ)[0]? :=
  ⟨rfl, indicator_count_and_extension.2.2.2.2 [1, 2, 3, 4] [5] 0 rfl⟩

/-- C2: saving, arbitrarily mutating the state, derivative, algebraic and
parameter variables, then restoring yields back exactly the saved values:
the resulting current variables and clock equal the original ones (indeed
the whole state equals the state right after the save), and the save
itself changes no current value. -/
theorem save_restore_roundtrip (s : ModelState) (f : Vars → Vars) :
    (restore_vars (mutate_vars f (save_vars s))).vars = s.vars ∧
    (restore_vars (mutate_vars f (save_vars s))).timeValue = s.timeValue ∧
    restore_vars (mutate_vars f (save_vars s)) = save_vars s ∧
    (save_vars s).vars = s.vars ∧
    (save_vars s).timeValue = s.timeValue := by
  refine ⟨rfl, rfl, ?_, rfl, rfl⟩
  rfl

/-- C4: confluent_event produces exactly the result of internal_event on
the same state vector and triggered-indicator array, for every input bag. -/
theorem confluent_event_eq_internal_event (s : ModelState) (q : Vec4)
    (se : List Bool) (xb : List ℚ) :
    confluent_event s q se xb = internal_event s q se := rfl

/-- C9: immediately after every update_vars call the pre-event shadow of
every variable equals its current value — update_vars ends with save_vars —
so restoring at that point is the identity (exact rollback is possible). -/
theorem update_vars_commits (q : Option Vec4) (doReinit : Bool)
    (s : ModelState) :
    (update_vars q doReinit s).pre = (update_vars q doReinit s).vars ∧
    (update_vars q doReinit s).PRE_timeValue
      = (update_vars q doReinit s).timeValue ∧
    restore_vars (update_vars q doReinit s) = update_vars q doReinit s := by
  refine ⟨rfl, rfl, ?_⟩
  rfl

/-- C10: this concrete model declares no sample sites and no delay sites:
numTimeEvents() and numDelays() both return 0, so the set of valid sample
indices and the set of valid delay indices are both empty. -/
theorem no_sample_sites_no_delay_sites :
    numTimeEvents = 0 ∧ numDelays = 0 ∧
    List.range numTimeEvents = [] ∧ List.range numDelays = [] :=
  ⟨rfl, rfl, rfl, rfl⟩

/-- C3: der_func is pure — on a committed state (shadows equal to current
values), evaluating the derivative at a trial vector leaves the model
state exactly as it was, and a second call with the same trial vector
returns the identical derivative vector. -/
theorem der_func_pure (s : ModelState) (q : Vec4)
    (h1 : s.pre = s.vars) (h2 : s.PRE_timeValue = s.timeValue) :
    (der_func s q).2 = s ∧
    (der_func (der_func s q).2 q).1 = (der_func s q).1 := by
  obtain ⟨v, p, tv, ptv, eps, ae, ai, fi, fb⟩ := s
  dsimp only at h1 h2
  subst h1
  subst h2
  exact ⟨rfl, rfl⟩

/-- Witness for C3 at a concrete committed state and trial vector. -/
theorem der_func_pure_witness :
    sampleState.pre = sampleState.vars ∧
    (der_func sampleState (5, 6, 7, 8)).2 = sampleState :=
  ⟨rfl, (der_func_pure sampleState (5, 6, 7, 8) rfl rfl).1⟩

/-- Recomputing the committed math-event branch at the same clock value a
second time changes nothing. -/
theorem newFloorIndex_idem (se : List Bool) (t : ℚ) (old : ℤ) :
    newFloorIndex se t (newFloorIndex se t old) = newFloorIndex se t old := by
  unfold newFloorIndex
  split_ifs <;> rfl

/-- The cooling-stage update is absorbing: on any record whose zone
temperature agrees with v and whose stage already carries the updated
value, recomputing the update gives the same value. -/
theorem newCool_stable (se : List Bool) (v w : Vars) (ht : w.t1 = v.t1)
    (hc : w.coolStage = newCool se v) : newCool se w = newCool se v := by
  unfold newCool at hc ⊢
  rw [ht, hc]
  split_ifs <;> rfl

/-- The heating-stage update is absorbing, as for the cooling stage. -/
theorem newHeat_stable (se : List Bool) (v w : Vars) (ht : w.t1 = v.t1)
    (hh : w.heatStage = newHeat se v) : newHeat se w = newHeat se v := by
  unfold newHeat at hh ⊢
  rw [ht, hh]
  split_ifs <;> rfl

/-- A record already carrying the discrete updates computed from v, and
agreeing with v on the zone temperature, is a fixed point of the discrete
update. -/
theorem applyDiscrete_stable (se : List Bool) (v w : Vars) (ht : w.t1 = v.t1)
    (hc : w.coolStage = newCool se v) (hh : w.heatStage = newHeat se v) :
    applyDiscrete se w = w := by
  unfold applyDiscrete
  rw [newCool_stable se v w ht hc, newHeat_stable se v w ht hh, ← hc, ← hh]

/-- The algebraic evaluator is idempotent: it reads only the fields it
preserves (states, parameters, stages), so re-evaluating its own output
reproduces it. -/
theorem computeVars_idem (t : ℚ) (fi : ℤ) (v : Vars) :
    computeVars t fi (computeVars t fi v) = computeVars t fi v := rfl

/-- The state variables of an event result already equal the integrator's
vector, so re-installing it changes nothing. -/
theorem writeStates_eventVars (s : ModelState) (q : Vec4) (se : List Bool) :
    writeStates q (eventVars s q se) = eventVars s q se := rfl

/-- The event result is a fixed point of the discrete update for the same
triggered-indicator set. -/
theorem applyDiscrete_eventVars (s : ModelState) (q : Vec4) (se : List Bool) :
    applyDiscrete se (eventVars s q se) = eventVars s q se :=
  applyDiscrete_stable se (writeStates q s.vars) (eventVars s q se) rfl rfl rfl

/-- Re-running the whole event computation on a state that already carries
an event result (same clock, committed math-event branch, and variables)
reproduces the same variable record. -/
theorem eventVars_stable (s s2 : ModelState) (q : Vec4) (se : List Bool)
    (hv : s2.vars = eventVars s q se) (ht : s2.timeValue = s.timeValue)
    (hf : s2.floorIndex = newFloorIndex se s.timeValue s.floorIndex) :
    eventVars s2 q se = eventVars s q se := by
  unfold eventVars
  rw [ht, hf, hv]
  rw [newFloorIndex_idem se s.timeValue s.floorIndex]
  rw [writeStates_eventVars s q se]
  rw [applyDiscrete_eventVars s q se]
  rw [writeStates_eventVars s q se]
  exact computeVars_idem s.timeValue (newFloorIndex se s.timeValue s.floorIndex)
    (writeStates q (applyDiscrete se (writeStates q s.vars)))

/-- Characterization of one internal event: it returns the state vector
unchanged and commits the event variable record as both current and shadow
values, with the math-event branch updated, its init flag cleared, and the
model back in continuous mode. -/
theorem internal_event_eq (s : ModelState) (q : Vec4) (se : List Bool) :
    internal_event s q se =
      (q, { s with vars := eventVars s q se, pre := eventVars s q se,
                   PRE_timeValue := s.timeValue,
                   floorIndex := newFloorIndex se s.timeValue s.floorIndex,
                   floorInit := false, atEvent := false }) := rfl

/-- One event-handling step is a fixed point for the subsequent event
computation with the same triggered-indicator set. -/
theorem eventVars_step (s : ModelState) (q : Vec4) (se : List Bool) :
    eventVars ({ s with
                 vars := eventVars s q se
                 pre := eventVars s q se
                 PRE_timeValue := s.timeValue
                 floorIndex := newFloorIndex se s.timeValue s.floorIndex
                 floorInit := false
                 atEvent := false } : ModelState) q se
      = eventVars s q se :=
  eventVars_stable s _ q se rfl rfl rfl

/-- C5: event handling is idempotent — for every state, state vector and
triggered-indicator set, invoking internal_event a second time on the
state resulting from the first invocation produces exactly the same
result, hence no further state change; internal_event is a total function,
so no invocation raises an error. -/
theorem internal_event_idem (s : ModelState) (q : Vec4) (se : List Bool) :
    internal_event (internal_event s q se).2 q se = internal_event s q se := by
  rw [internal_event_eq s q se]
  rw [internal_event_eq]
  dsimp only
  rw [eventVars_step s q se]
  rw [newFloorIndex_idem se s.timeValue s.floorIndex]

/-- C6: hysteresis non-chatter, in both trigger directions.  Once an
indicator with band width h has triggered in a direction D, it can trigger
in the opposite direction only after the signal has moved back across the
band by at least h: after a rising trigger (band above), a falling trigger
forces the signal below threshold - h, and any signal at or above
threshold - h leaves the indicator quiet and unchanged; after a falling
trigger (band below), a rising trigger forces the signal above the
threshold — that is, more than h above the falling threshold
threshold - h — and any signal at or below the threshold leaves the
indicator quiet and unchanged.  Concretely, with rising threshold 20.0 and
hysteresis 0.5, the trace 19.0, 20.6, 20.1, 20.6, 19.6, 19.4, 19.6, 20.0,
20.3 triggers up exactly once at the first 20.6, stays quiet through 20.1,
20.6 and 19.6, triggers down at 19.4 (19.4 < 19.5), then stays quiet at
19.6 and 20.0 and only re-triggers up at 20.3 > 20.0. -/
theorem hysteresis_non_chatter :
    (∀ (ind : HysIndicator) (x : ℚ), ind.band = Band.above →
      (stepIndicator ind x).1 = Trigger.down → x < ind.threshold - ind.hys) ∧
    (∀ (ind : HysIndicator) (x : ℚ), ind.band = Band.above →
      ind.threshold - ind.hys ≤ x →
      (stepIndicator ind x).1 = Trigger.quiet ∧ (stepIndicator ind x).2 = ind) ∧
    (∀ (ind : HysIndicator) (x : ℚ), ind.band = Band.below →
      (stepIndicator ind x).1 = Trigger.up →
      ind.threshold - ind.hys + ind.hys < x) ∧
    (∀ (ind : HysIndicator) (x : ℚ), ind.band = Band.below →
      x ≤ ind.threshold →
      (stepIndicator ind x).1 = Trigger.quiet ∧ (stepIndicator ind x).2 = ind) ∧
    runIndicator ⟨20, 1/2, Band.below⟩
      [19, 103/5, 201/10, 103/5, 98/5, 97/5, 98/5, 20, 203/10]
      = [Trigger.quiet, Trigger.up, Trigger.quiet, Trigger.quiet,
         Trigger.quiet, Trigger.down, Trigger.quiet, Trigger.quiet,
         Trigger.up] := by
  refine ⟨?_, ?_, ?_, ?_, by norm_num [runIndicator, stepIndicator]⟩
  · rintro ⟨thr, hy, band⟩ x hb htr
    cases hb
    dsimp only [stepIndicator] at htr ⊢
    by_cases h : x < thr - hy
    · exact h
    · rw [if_neg h] at htr
      simp at htr
  · rintro ⟨thr, hy, band⟩ x hb hge
    cases hb
    dsimp only [stepIndicator]
    rw [if_neg (not_lt.mpr hge)]
    exact ⟨rfl, rfl⟩
  · rintro ⟨thr, hy, band⟩ x hb htr
    cases hb
    dsimp only [stepIndicator] at htr ⊢
    rw [sub_add_cancel]
    by_cases h : thr < x
    · exact h
    · rw [if_neg h] at htr
      simp at htr
  · rintro ⟨thr, hy, band⟩ x hb hle
    cases hb
    dsimp only [stepIndicator]
    rw [if_neg (not_lt.mpr hle)]
    exact ⟨rfl, rfl⟩

/-- Witness for C6, one concrete input per trigger direction: the
indicator with threshold 20 and hysteresis 1/2, sitting above its band,
triggers down at 19.4, which is below 20 - 1/2; sitting below its band, it
triggers up at 20.3, which exceeds the falling threshold 19.5 by more than
the band width 1/2. -/
theorem hysteresis_non_chatter_witness :
    ((stepIndicator ⟨20, 1/2, Band.above⟩ (97/5)).1 = Trigger.down ∧
      (97 : ℚ)/5 < 20 - 1/2) ∧
    ((stepIndicator ⟨20, 1/2, Band.below⟩ (203/10)).1 = Trigger.up ∧
      (20 : ℚ) - 1/2 + 1/2 < 203/10) :=
  ⟨⟨by norm_num [stepIndicator],
    hysteresis_non_chatter.1 ⟨20, 1/2, Band.above⟩ (97/5) rfl
      (by norm_num [stepIndicator])⟩,
   ⟨by norm_num [stepIndicator],
    hysteresis_non_chatter.2.2.1 ⟨20, 1/2, Band.below⟩ (203/10) rfl
      (by norm_num [stepIndicator])⟩⟩

/-- C7: the initial solve is never silently inconsistent — whenever
solve_for_initial_unknowns succeeds, every initial-equation residual at
the returned unknowns has magnitude at most the tolerance, and whenever it
does not succeed it returns the explicit nonConvergent failure (after at
most its bounded iteration budget). -/
theorem initial_solve_no_silent_inconsistency
    (residual improve : List ℚ → List ℚ) (eps : ℚ) (fuel : Nat)
    (w0 : List ℚ) :
    (∀ w, solve_for_initial_unknowns residual improve eps fuel w0
        = Except.ok w → ∀ r ∈ residual w, |r| ≤ eps) ∧
    (solve_for_initial_unknowns residual improve eps fuel w0
        = Except.error InitError.nonConvergent ∨
      ∃ w, solve_for_initial_unknowns residual improve eps fuel w0
        = Except.ok w) := by
  induction fuel generalizing w0 with
  | zero =>
      refine ⟨?_, Or.inl rfl⟩
      intro w h
      exact absurd h (by simp [solve_for_initial_unknowns])
  | succ n ih =>
      by_cases hc : residualsWithin (residual w0) eps = true
      · have hok : solve_for_initial_unknowns residual improve eps (n + 1) w0
            = Except.ok w0 := by
          simp only [solve_for_initial_unknowns, hc, if_true]
        refine ⟨?_, Or.inr ⟨w0, hok⟩⟩
        intro w h
        rw [hok] at h
        injection h with h
        subst h
        intro r hr
        have hall := List.all_eq_true.mp hc r hr
        exact of_decide_eq_true hall
      · have hstep : solve_for_initial_unknowns residual improve eps (n + 1) w0
            = solve_for_initial_unknowns residual improve eps n (improve w0) := by
          show (if residualsWithin (residual w0) eps then Except.ok w0
            else solve_for_initial_unknowns residual improve eps n (improve w0))
              = solve_for_initial_unknowns residual improve eps n (improve w0)
          rw [if_neg hc]
        rw [hstep]
        exact ih (improve w0)

/-- Witness for C7: with the identity residual function, tolerance 1,
budget 1 and starting guess containing 1/2, the solve succeeds and the
residual magnitude is within tolerance. -/
theorem initial_solve_witness :
    solve_for_initial_unknowns (fun w => w) (fun w => w) 1 1 [1/2]
      = Except.ok [1/2] ∧ |(1 : ℚ)/2| ≤ 1 := by
  have hok : solve_for_initial_unknowns (fun w => w) (fun w => w) 1 1 [1/2]
      = Except.ok [1/2] := by
    norm_num [solve_for_initial_unknowns, residualsWithin, abs_of_nonneg]
  exact ⟨hok,
    (initial_solve_no_silent_inconsistency (fun w => w) (fun w => w) 1 1
      [1/2]).1 [1/2] hok (1/2) (by simp)⟩

/-- Eviction never loses coverage inside the horizon: if the unpruned
history had an entry at or before instant s and s is not older than the
eviction bound, the pruned history still has one. -/
theorem keepHorizon_covered (bound s : ℚ) (l : List (ℚ × ℚ)) (hbs : bound ≤ s)
    (h : ∃ e ∈ l, e.1 ≤ s) : ∃ e ∈ keepHorizon bound l, e.1 ≤ s := by
  induction l with
  | nil => exact absurd h (by simp)
  | cons a l ih =>
      simp only [keepHorizon]
      by_cases hb : bound ≤ a.1
      · rw [if_pos hb]
        rcases h with ⟨e, he, hes⟩
        rcases List.mem_cons.mp he with heq | hmem
        · exact ⟨a, List.mem_cons_self a _, heq ▸ hes⟩
        · rcases ih ⟨e, hmem, hes⟩ with ⟨f, hf, hfs⟩
          exact ⟨f, List.mem_cons_of_mem a hf, hfs⟩
      · rw [if_neg hb]
        exact ⟨a, List.mem_cons_self a _, (lt_of_not_le hb).le.trans hbs⟩

/-- Recording keeps the declared horizon. -/
theorem saveDelay_maxDelay (d : DelayData) (t v : ℚ) :
    (saveDelay d t v).maxDelay = d.maxDelay := rfl

/-- A sequence of recordings keeps the declared horizon. -/
theorem runSaves_maxDelay (l : List (ℚ × ℚ)) (d : DelayData) :
    (runSaves d l).maxDelay = d.maxDelay := by
  induction l generalizing d with
  | nil => rfl
  | cons a l ih =>
      obtain ⟨t, v⟩ := a
      exact (ih (saveDelay d t v)).trans rfl

/-- One recording at a time t no earlier than the newest record preserves
the coverage invariant, now anchored at t. -/
theorem saveDelay_inv (d : DelayData) (T t v : ℚ) (hTt : T ≤ t)
    (hinv : DelayInv d T) : DelayInv (saveDelay d t v) t := by
  intro s hs1 hs2
  rw [saveDelay_maxDelay] at hs1
  have hcov : ∃ e ∈ (t, v) :: d.hist, e.1 ≤ s := by
    rcases hinv s (by linarith) hs2 with ⟨e, he, hes⟩
    exact ⟨e, List.mem_cons_of_mem _ he, hes⟩
  exact keepHorizon_covered (t - d.maxDelay) s ((t, v) :: d.hist) hs1 hcov

/-- The coverage invariant is preserved along any nondecreasing sequence
of recordings, ending anchored at the last recorded time. -/
theorem runSaves_inv (l : List (ℚ × ℚ)) (d : DelayData) (T : ℚ)
    (hasc : ascFrom T (l.map Prod.fst) = true) (hinv : DelayInv d T) :
    DelayInv (runSaves d l) (lastTime T (l.map Prod.fst)) := by
  induction l generalizing d T with
  | nil => exact hinv
  | cons a l ih =>
      obtain ⟨t, v⟩ := a
      simp only [List.map_cons, ascFrom, Bool.and_eq_true,
        decide_eq_true_eq] at hasc
      exact ih (saveDelay d t v) t hasc.2 (saveDelay_inv d T t v hasc.1 hinv)

/-- C8: for a delay site declared with maximum lag L and recorded at
nondecreasing times starting at simulation start (time 0), a lookup at lag
greater than L fails with the insufficient-history condition, and a lookup
at lag at most L succeeds whenever at least L of simulated time has
elapsed (L ≤ current time, the recordings not being in the future). -/
theorem delay_bound_and_success (L v0 lag tq : ℚ) (rest : List (ℚ × ℚ))
    (hasc : ascFrom 0 (rest.map Prod.fst) = true) :
    (L < lag →
      calcDelay (runSaves ⟨L, []⟩ ((0, v0) :: rest)) tq lag
        = Except.error DelayError.insufficientHistory) ∧
    (lag ≤ L → L ≤ tq → lastTime 0 (rest.map Prod.fst) ≤ tq →
      ∃ y, calcDelay (runSaves ⟨L, []⟩ ((0, v0) :: rest)) tq lag
        = Except.ok y) := by
  have hmd : (runSaves ⟨L, []⟩ ((0, v0) :: rest)).maxDelay = L :=
    runSaves_maxDelay _ _
  constructor
  · intro hlag
    unfold calcDelay
    rw [hmd, if_pos hlag]
  · intro h1 h2 h3
    have hinv0 : DelayInv (saveDelay ⟨L, []⟩ 0 v0) 0 := by
      intro s hs1 hs2
      refine ⟨(0, v0), ?_, by simpa using hs2⟩
      show (0, v0) ∈ keepHorizon (0 - L) [(0, v0)]
      simp only [keepHorizon]
      split_ifs <;> simp
    have hinvF := runSaves_inv rest (saveDelay ⟨L, []⟩ 0 v0) 0 hasc hinv0
    have hmd2 : (runSaves (saveDelay ⟨L, []⟩ 0 v0) rest).maxDelay = L :=
      runSaves_maxDelay _ _
    have hcov : Covered (runSaves ⟨L, []⟩ ((0, v0) :: rest)) (tq - lag) := by
      refine hinvF (tq - lag) ?_ ?_
      · rw [hmd2]
        linarith
      · linarith
    rcases hcov with ⟨e, he, hes⟩
    unfold calcDelay
    rw [hmd, if_neg (not_lt.mpr h1)]
    cases hfind : (runSaves ⟨L, []⟩ ((0, v0) :: rest)).hist.find?
        (fun e => decide (e.1 ≤ tq - lag)) with
    | none =>
        exact absurd (decide_eq_true hes) (List.find?_eq_none.mp hfind e he)
    | some f => exact ⟨f.2, rfl⟩

/-- Witness for C8: horizon 2, recordings at times 0, 1, 2; at current
time 2 a lookup at lag 2 succeeds and a lookup at lag 3 fails with
insufficient history. -/
theorem delay_bound_witness :
    (∃ y, calcDelay (runSaves ⟨2, []⟩ [(0, 10), (1, 11), (2, 12)]) 2 2
        = Except.ok y) ∧
    calcDelay (runSaves ⟨2, []⟩ [(0, 10), (1, 11), (2, 12)]) 2 3
      = Except.error DelayError.insufficientHistory := by
  constructor
  · exact (delay_bound_and_success 2 10 2 2 [(1, 11), (2, 12)]
      (by norm_num [ascFrom])).2 (by norm_num) (by norm_num)
      (by norm_num [lastTime])
  · exact (delay_bound_and_success 2 10 3 2 [(1, 11), (2, 12)]
      (by norm_num [ascFrom])).1 (by norm_num)

end BuildingModel
